import Mathlib

/-!
Verification of the gcs-cromwell-cleaner tool (src/main.rs).

The development shallowly embeds the program's pure core:

* the compiled regular expression `RE` and its unanchored search
  (`RE.is_match`), modelled as an executable matcher over `List Char`
  (the `\w` and `\d` character classes of the source regex are modelled
  over ASCII; every string the program is specified against is ASCII);
* `parse_gsutil_path`, the `gs://bucket/folder` locator parser;
* `filter_objects`, `remove_objects` and `handle_removal`, where the
  backend's per-request failure behaviour is an explicit oracle and the
  observable effects (delete requests issued, error lines printed,
  report lines printed, returned result) are returned as data;
* the pagination loop of `main`, with the backend modelled as a function
  from page tokens to listing responses and the loop run with explicit
  fuel (the source's `while let` has no fuel; termination is expressed
  by the run being independent of any sufficiently large fuel).
-/

/-- Character class `[0-9a-fA-F]` of the source regex. -/
def isHexDigitRe (c : Char) : Bool :=
  c.isDigit || ('a' ≤ c && c ≤ 'f') || ('A' ≤ c && c ≤ 'F')

/-- Character class `[\w_\-]` of the source regex, over ASCII. -/
def isWordDashRe (c : Char) : Bool :=
  c.isAlphanum || c = '_' || c = '-'

/-- Consume an exact literal from the front of a character list
(`Regex` literal characters; also Rust's `starts_with`/`strip` pair in
`parse_gsutil_path`). -/
def chompLit : List Char → List Char → Option (List Char)
  | [], s => some s
  | _ :: _, [] => none
  | c :: cs, d :: ds => if c = d then chompLit cs ds else none

/-- Consume exactly `n` hexadecimal digits (`[0-9a-fA-F]{n}`). -/
def chompHex : Nat → List Char → Option (List Char)
  | 0, s => some s
  | _ + 1, [] => none
  | n + 1, c :: cs => if isHexDigitRe c then chompHex n cs else none

/-- Consume the maximal run of characters satisfying `p`, returning the
run and the remainder.  Because `/` satisfies neither class used below,
the greedy runs `[\w_\-]+`, `\d{1,5}` and `\d+` of the source regex,
each of which is followed by `/` in the pattern, are equivalent to this
maximal-run reading. -/
def chompRun (p : Char → Bool) : List Char → List Char × List Char
  | [] => ([], [])
  | c :: cs =>
    if p c then
      let r := chompRun p cs
      (c :: r.1, r.2)
    else ([], c :: cs)

/-- Consume the canonical 8-4-4-4-12 hexadecimal UUID of the source
regex. -/
def chompUuid (s : List Char) : Option (List Char) :=
  (chompHex 8 s).bind fun s1 =>
  (chompLit ['-'] s1).bind fun s2 =>
  (chompHex 4 s2).bind fun s3 =>
  (chompLit ['-'] s3).bind fun s4 =>
  (chompHex 4 s4).bind fun s5 =>
  (chompLit ['-'] s5).bind fun s6 =>
  (chompHex 4 s6).bind fun s7 =>
  (chompLit ['-'] s7).bind fun s8 =>
  chompHex 12 s8

/-- The leaf alternation of the source regex,
`(?:script|rc|gcs_delocalization\.sh|gcs_localization\.sh|gcs_transfer\.sh|stdout|stderr|pipelines-logs/action/\d+/(?:stderr|stdout))`,
matched at the front of the remaining input (the regex is unanchored, so
arbitrary text may follow the alternative that matches). -/
def matchLeafAt (s : List Char) : Bool :=
  (chompLit "script".data s).isSome ||
  (chompLit "rc".data s).isSome ||
  (chompLit "gcs_delocalization.sh".data s).isSome ||
  (chompLit "gcs_localization.sh".data s).isSome ||
  (chompLit "gcs_transfer.sh".data s).isSome ||
  (chompLit "stdout".data s).isSome ||
  (chompLit "stderr".data s).isSome ||
  (match chompLit "pipelines-logs/action/".data s with
   | none => false
   | some s1 =>
     (decide (1 ≤ (chompRun Char.isDigit s1).1.length)) &&
     ((chompLit "/stderr".data (chompRun Char.isDigit s1).2).isSome ||
      (chompLit "/stdout".data (chompRun Char.isDigit s1).2).isSome))

/-- Match the whole source regex at the front of the input (the match
may end before the end of the input, as Rust's `Regex::is_match` only
requires some match to exist). -/
def matchAt (s : List Char) : Bool :=
  match chompUuid s with
  | none => false
  | some s1 =>
    match chompLit "/call-".data s1 with
    | none => false
    | some s2 =>
      (decide (1 ≤ (chompRun isWordDashRe s2).1.length)) &&
      (match chompLit "/shard-".data (chompRun isWordDashRe s2).2 with
       | none => false
       | some s3 =>
         (decide (1 ≤ (chompRun Char.isDigit s3).1.length)) &&
         (decide ((chompRun Char.isDigit s3).1.length ≤ 5)) &&
         (match chompLit ['/'] (chompRun Char.isDigit s3).2 with
          | none => false
          | some s4 => matchLeafAt s4))

/-- Unanchored search: try the pattern at every starting position. -/
def reSearch : List Char → Bool
  | [] => matchAt []
  | c :: cs => matchAt (c :: cs) || reSearch cs

/-- Embeds `RE.is_match` of the source: unanchored match of the
compiled regex against an object key. -/
def RE.is_match (key : String) : Bool :=
  reSearch key.data

/-- The fields of `google_cloud_storage`'s `Object` that the program
reads: `bucket` and `name`. -/
structure Object where
  bucket : String
  name : String
deriving DecidableEq, Repr

/-- Embeds `filter_objects` of the source (`filter_map` keeping the
objects whose `name` matches `RE`). -/
def filter_objects (items : List Object) : List Object :=
  items.filterMap fun obj => if RE.is_match obj.name then some obj else none

/-- The fields of `DeleteObjectRequest` that `remove_objects` sets. -/
structure DeleteObjectRequest where
  bucket : String
  object : String
deriving DecidableEq, Repr

/-- Observable effects of one call to `remove_objects`: the delete
requests issued (paired with the backend's response for that request,
`none` meaning success and `some e` an error with message `e`), the
error lines printed, and the function's returned result. -/
structure DeletionRun where
  outcomes : List (DeleteObjectRequest × Option String)
  errorLines : List String
  result : Except String Unit

/-- Embeds `remove_objects` of the source.  For each input object, one
delete request is spawned; a failing request only produces an error
line; `join_all` awaits every spawned request, after which `Ok(())` is
returned.  `backendErr` is the oracle giving the backend's response to
each delete request. -/
def remove_objects (backendErr : DeleteObjectRequest → Option String)
    (items : List Object) : DeletionRun :=
  let outcomes := items.map fun item =>
    let req : DeleteObjectRequest := { bucket := item.bucket, object := item.name }
    (req, backendErr req)
  { outcomes := outcomes
    errorLines := outcomes.filterMap fun o =>
      o.2.map fun e => "Error deleting object: " ++ e
    result := Except.ok () }

/-- Observable effects of one call to `handle_removal`: the dry-run
report lines printed, the delete requests issued (with their outcomes),
the delete-error lines printed, and the returned result. -/
structure HandleRun where
  reportLines : List String
  deleteOutcomes : List (DeleteObjectRequest × Option String)
  deleteErrorLines : List String
  result : Except String Unit

/-- Embeds `handle_removal` of the source: on `Some(items)`, filter the
batch through the regex; in dry-run mode print one `gs://bucket/name`
line per retained object and delete nothing; otherwise hand the
retained objects to `remove_objects`. -/
def handle_removal (backendErr : DeleteObjectRequest → Option String)
    (items : Option (List Object)) (dry_run : Bool) : HandleRun :=
  match items with
  | none =>
    { reportLines := [], deleteOutcomes := [], deleteErrorLines := []
      result := Except.ok () }
  | some items =>
    let filtered := filter_objects items
    if dry_run then
      { reportLines := filtered.map fun obj => "gs://" ++ obj.bucket ++ "/" ++ obj.name
        deleteOutcomes := [], deleteErrorLines := []
        result := Except.ok () }
    else
      let run := remove_objects backendErr filtered
      { reportLines := [], deleteOutcomes := run.outcomes
        deleteErrorLines := run.errorLines, result := run.result }

/-- Embeds the `GsPath` struct of the source. -/
structure GsPath where
  bucket : String
  folder : String
deriving DecidableEq, Repr

/-- The characters of the literal scheme `gs://`. -/
def gsScheme : List Char := ['g', 's', ':', '/', '/']

/-- Split a character list at its first `/` (Rust's `splitn(2, '/')`):
`some (before, after)` when a `/` is present, `none` otherwise. -/
def splitFirstSlash : List Char → Option (List Char × List Char)
  | [] => none
  | c :: cs =>
    if c = '/' then some ([], cs)
    else
      match splitFirstSlash cs with
      | some (b, f) => some (c :: b, f)
      | none => none

/-- Embeds `parse_gsutil_path` of the source: require the `gs://`
scheme, then split the remainder at the first `/` into bucket and
folder; error out if the scheme is missing or no `/` is present in the
remainder. -/
def parse_gsutil_path (path : String) : Except String GsPath :=
  match chompLit gsScheme path.data with
  | none => Except.error "Invalid gsutil path format, no gs:// prefix"
  | some rest =>
    match splitFirstSlash rest with
    | none => Except.error "Invalid gsutil path format, no folder specified"
    | some (b, f) => Except.ok { bucket := ⟨b⟩, folder := ⟨f⟩ }

/-- The fields of `ListObjectsResponse` that `main` reads. -/
structure ListObjectsResponse where
  items : Option (List Object)
  next_page_token : Option String
deriving DecidableEq, Repr

/-- Embeds the pagination loop of `main`: issue a listing call with the
current token, record the response (each recorded response is one
listing call, whose `items` are handed to a spawned `handle_removal`
task), and continue with the returned continuation token until a
response carries none.  The source's `while let` loop has no fuel; the
fuel argument only bounds the recursion, and termination of the source
loop is expressed by the run being the same for every sufficiently
large fuel. -/
def runPagination (backend : Option String → ListObjectsResponse) :
    Nat → Option String → List ListObjectsResponse
  | 0, _ => []
  | fuel + 1, tok =>
    let res := backend tok
    match res.next_page_token with
    | none => [res]
    | some t => res :: runPagination backend fuel (some t)

/-- The backend serves, from starting token `t`, exactly the finite
page chain `ps`: every page except the last carries a continuation
token leading to the next page, and the last page carries none. -/
inductive Serves (backend : Option String → ListObjectsResponse) :
    Option String → List ListObjectsResponse → Prop
  | last (t : Option String) (p : ListObjectsResponse) :
      backend t = p → p.next_page_token = none → Serves backend t [p]
  | step (t : Option String) (p : ListObjectsResponse) (tok : String)
      (rest : List ListObjectsResponse) :
      backend t = p → p.next_page_token = some tok →
      Serves backend (some tok) rest → Serves backend t (p :: rest)

/-- First demonstration page: present but empty item list, with a
continuation token. -/
def demoPageA : ListObjectsResponse := { items := some [], next_page_token := some "t1" }

/-- Second demonstration page: absent item list, with a continuation
token. -/
def demoPageB : ListObjectsResponse := { items := none, next_page_token := some "t2" }

/-- Third demonstration page: one object, no continuation token. -/
def demoPageC : ListObjectsResponse :=
  { items := some [{ bucket := "my-bucket", name := "x" }], next_page_token := none }

/-- A concrete three-page backend used to instantiate the pagination
theorem. -/
def demoBackend : Option String → ListObjectsResponse
  | none => demoPageA
  | some t => if t = "t1" then demoPageB else demoPageC

/-!
Spec-side definitions.

`segmentSequenceMatch` formalises the claim's and the spec's reading of
the matcher ("the key contains, as a path segment sequence, a
canonical-form UUID, followed by `call-<token>`, followed by
`shard-<1to5-digit-number>`, followed by one of the recognized leaf
names"); it is compared against the source-derived `RE.is_match`.

`ShapeCore` is the declarative description of the set of strings the
source regex itself accepts, used to characterise `RE.is_match` as pure
substring containment.
-/

/-- Split a character list on a separator character (the spec's path
segments, and the dash groups of a UUID). -/
def splitOnChar (sep : Char) : List Char → List (List Char)
  | [] => [[]]
  | c :: cs =>
    match splitOnChar sep cs with
    | [] => [[c]]
    | s :: rest => if c = sep then [] :: s :: rest else (c :: s) :: rest

/-- Spec reading: a whole segment is a canonical 8-4-4-4-12 hexadecimal
UUID. -/
def isCanonicalUuidSeg (seg : List Char) : Bool :=
  match splitOnChar '-' seg with
  | [a, b, c, d, e] =>
    decide (a.length = 8) && decide (b.length = 4) && decide (c.length = 4) &&
    decide (d.length = 4) && decide (e.length = 12) &&
    a.all isHexDigitRe && b.all isHexDigitRe && c.all isHexDigitRe &&
    d.all isHexDigitRe && e.all isHexDigitRe
  | _ => false

/-- Spec reading: a whole segment is `call-<token>` with a non-empty
token of word-or-dash characters. -/
def isCallSeg (seg : List Char) : Bool :=
  match chompLit "call-".data seg with
  | some t => decide (1 ≤ t.length) && t.all isWordDashRe
  | none => false

/-- Spec reading: a whole segment is `shard-<n>` with a 1-to-5-digit
number. -/
def isShardSeg (seg : List Char) : Bool :=
  match chompLit "shard-".data seg with
  | some t => decide (1 ≤ t.length) && decide (t.length ≤ 5) && t.all Char.isDigit
  | none => false

/-- Spec reading: the segments after the shard segment begin with one
of the recognized leaf names — a single recognized leaf segment, or the
nested `pipelines-logs/action/<digits>/stdout|stderr` segments. -/
def isLeafSegs (segs : List (List Char)) : Bool :=
  (match segs with
   | s :: _ =>
     decide (s = "script".data) || decide (s = "rc".data) ||
     decide (s = "gcs_delocalization.sh".data) ||
     decide (s = "gcs_localization.sh".data) ||
     decide (s = "gcs_transfer.sh".data) ||
     decide (s = "stdout".data) || decide (s = "stderr".data)
   | [] => false) ||
  (match segs with
   | p :: a :: d :: s :: _ =>
     decide (p = "pipelines-logs".data) && decide (a = "action".data) &&
     decide (1 ≤ d.length) && d.all Char.isDigit &&
     (decide (s = "stdout".data) || decide (s = "stderr".data))
   | _ => false)

/-- Spec reading: scan the segment list for a consecutive run
UUID-segment, call-segment, shard-segment, leaf-segments. -/
def specSegScan : List (List Char) → Bool
  | [] => false
  | u :: rest =>
    (match rest with
     | c :: s :: rest2 =>
       isCanonicalUuidSeg u && isCallSeg c && isShardSeg s && isLeafSegs rest2
     | _ => false) || specSegScan rest

/-- The claim's segment-sequence reading of the matcher: the key,
split on `/`, contains the required consecutive run of segments. -/
def segmentSequenceMatch (key : String) : Bool :=
  specSegScan (splitOnChar '/' key.data)

/-- A run of exactly `n` hexadecimal digits. -/
def HexRun (n : Nat) (u : List Char) : Prop :=
  u.length = n ∧ ∀ c ∈ u, isHexDigitRe c = true

/-- The characters of a canonical 8-4-4-4-12 hexadecimal UUID. -/
def UuidChars (u : List Char) : Prop :=
  ∃ a b c d e, u = a ++ '-' :: b ++ '-' :: c ++ '-' :: d ++ '-' :: e ∧
    HexRun 8 a ∧ HexRun 4 b ∧ HexRun 4 c ∧ HexRun 4 d ∧ HexRun 12 e

/-- The strings generated by the leaf alternation of the regex. -/
def LeafShape (l : List Char) : Prop :=
  l = "script".data ∨ l = "rc".data ∨ l = "gcs_delocalization.sh".data ∨
  l = "gcs_localization.sh".data ∨ l = "gcs_transfer.sh".data ∨
  l = "stdout".data ∨ l = "stderr".data ∨
  ∃ dd t, l = "pipelines-logs/action/".data ++ dd ++ '/' :: t ∧
    1 ≤ dd.length ∧ (∀ c ∈ dd, c.isDigit = true) ∧
    (t = "stdout".data ∨ t = "stderr".data)

/-- The strings generated by the whole regex: UUID, `/call-` and a
non-empty word-or-dash token, `/shard-` and a 1-to-5-digit number, `/`
and a leaf. -/
def ShapeCore (core : List Char) : Prop :=
  ∃ u w d leaf,
    core = u ++ "/call-".data ++ w ++ "/shard-".data ++ d ++ '/' :: leaf ∧
    UuidChars u ∧
    1 ≤ w.length ∧ (∀ c ∈ w, isWordDashRe c = true) ∧
    1 ≤ d.length ∧ d.length ≤ 5 ∧ (∀ c ∈ d, c.isDigit = true) ∧
    LeafShape leaf

/-!
Lemmas about `chompLit` and `splitFirstSlash`.
-/

theorem chompLit_some_iff (lit : List Char) :
    ∀ s t : List Char, chompLit lit s = some t ↔ s = lit ++ t := by
  induction lit with
  | nil => intro s t; simp [chompLit]
  | cons c cs ih =>
    intro s t
    cases s with
    | nil =>
      simp only [chompLit, List.cons_append]
      exact ⟨fun h => Option.noConfusion h, fun h => List.noConfusion h⟩
    | cons d ds =>
      by_cases hcd : c = d
      · subst hcd
        simp only [chompLit, if_pos rfl, List.cons_append, List.cons.injEq, true_and]
        exact ih ds t
      · simp only [chompLit, if_neg hcd, List.cons_append, List.cons.injEq]
        exact ⟨fun h => Option.noConfusion h, fun h => absurd h.1.symm hcd⟩

theorem chompLit_self (lit t : List Char) : chompLit lit (lit ++ t) = some t :=
  (chompLit_some_iff lit (lit ++ t) t).mpr rfl

theorem chompLit_single (c : Char) (t : List Char) : chompLit [c] (c :: t) = some t := by
  simp [chompLit]

theorem splitFirstSlash_some_iff :
    ∀ l b f : List Char, splitFirstSlash l = some (b, f) ↔ l = b ++ '/' :: f ∧ '/' ∉ b := by
  intro l
  induction l with
  | nil =>
    intro b f
    constructor
    · intro h; exact Option.noConfusion h
    · rintro ⟨h, -⟩
      exact absurd h (by cases b <;> simp)
  | cons c cs ih =>
    intro b f
    by_cases hc : c = '/'
    · subst hc
      simp only [splitFirstSlash, if_pos rfl]
      constructor
      · intro h
        obtain ⟨h1, h2⟩ := Prod.mk.injEq .. ▸ Option.some.inj h
        subst h1; subst h2
        exact ⟨rfl, by simp⟩
      · rintro ⟨h, hnb⟩
        cases b with
        | nil =>
          obtain ⟨-, h2⟩ := List.cons.injEq .. ▸ h
          rw [h2]
          simp
        | cons b0 bs =>
          obtain ⟨h1, -⟩ := List.cons.injEq .. ▸ h
          exact absurd (List.mem_cons.mpr (Or.inl h1)) hnb
    · simp only [splitFirstSlash, if_neg hc]
      cases hsp : splitFirstSlash cs with
      | none =>
        constructor
        · intro h; exact Option.noConfusion h
        · rintro ⟨h, hnb⟩
          cases b with
          | nil =>
            obtain ⟨h1, -⟩ := List.cons.injEq .. ▸ h
            exact absurd h1 hc
          | cons b0 bs =>
            obtain ⟨-, h2⟩ := List.cons.injEq .. ▸ h
            have : splitFirstSlash cs = some (bs, f) :=
              (ih bs f).mpr ⟨h2, fun hm => hnb (List.mem_cons.mpr (Or.inr hm))⟩
            rw [hsp] at this
            exact Option.noConfusion this
      | some pair =>
        obtain ⟨a, f2⟩ := pair
        obtain ⟨ha, hna⟩ := (ih a f2).mp hsp
        constructor
        · intro h
          obtain ⟨h1, h2⟩ := Prod.mk.injEq .. ▸ Option.some.inj h
          subst h1; subst h2
          refine ⟨by rw [ha]; rfl, ?_⟩
          intro hm
          rcases List.mem_cons.mp hm with h1 | h1
          · exact hc h1.symm
          · exact hna h1
        · rintro ⟨h, hnb⟩
          cases b with
          | nil =>
            obtain ⟨h1, -⟩ := List.cons.injEq .. ▸ h
            exact absurd h1 hc
          | cons b0 bs =>
            obtain ⟨h1, h2⟩ := List.cons.injEq .. ▸ h
            have : splitFirstSlash cs = some (bs, f) :=
              (ih bs f).mpr ⟨h2, fun hm => hnb (List.mem_cons.mpr (Or.inr hm))⟩
            rw [hsp] at this
            obtain ⟨h3, h4⟩ := Prod.mk.injEq .. ▸ Option.some.inj this
            rw [h1, h3, h4]

theorem splitFirstSlash_none_iff : ∀ l : List Char, splitFirstSlash l = none ↔ '/' ∉ l := by
  intro l
  induction l with
  | nil => simp [splitFirstSlash]
  | cons c cs ih =>
    by_cases hc : c = '/'
    · subst hc; simp [splitFirstSlash]
    · simp only [splitFirstSlash, if_neg hc]
      cases hsp : splitFirstSlash cs with
      | none =>
        constructor
        · intro _ hm
          rcases List.mem_cons.mp hm with h1 | h1
          · exact hc h1.symm
          · exact (ih.mp hsp) h1
        · intro _; rfl
      | some pair =>
        obtain ⟨a, f2⟩ := pair
        constructor
        · intro h; exact Option.noConfusion h
        · intro hmem
          exfalso
          obtain ⟨ha, -⟩ := (splitFirstSlash_some_iff cs a f2).mp hsp
          exact hmem (List.mem_cons.mpr (Or.inr (ha ▸ List.mem_append.mpr
            (Or.inr (List.mem_cons.mpr (Or.inl rfl))))))

/-- Inversion of a successful parse: the input is the scheme, a
slash-free bucket, a separator and the folder. -/
theorem parse_gsutil_path_ok_inv (s : String) (p : GsPath)
    (h : parse_gsutil_path s = Except.ok p) :
    s.data = gsScheme ++ p.bucket.data ++ '/' :: p.folder.data ∧ '/' ∉ p.bucket.data := by
  unfold parse_gsutil_path at h
  split at h
  · exact Except.noConfusion h
  · rename_i rest h1
    split at h
    · exact Except.noConfusion h
    · rename_i b f h2
      obtain rfl : ({ bucket := ⟨b⟩, folder := ⟨f⟩ } : GsPath) = p := Except.ok.inj h
      obtain ⟨hr, hnb⟩ := (splitFirstSlash_some_iff rest b f).mp h2
      refine ⟨?_, hnb⟩
      rw [(chompLit_some_iff gsScheme s.data rest).mp h1, hr]
      rfl

/-- Claim C5: for every bucket name `B` (a bucket name contains no path
separator) and every non-empty string `F`, parsing `gs://B/F` succeeds
and yields exactly `{bucket = B, folder = F}`, with `F` kept verbatim
including any trailing separator. -/
theorem parse_gsutil_path_ok (B F : String) (hB : '/' ∉ B.data) (hF : F ≠ "") :
    parse_gsutil_path ("gs://" ++ B ++ "/" ++ F) = Except.ok { bucket := B, folder := F } := by
  have hdata : ("gs://" ++ B ++ "/" ++ F).data = gsScheme ++ (B.data ++ '/' :: F.data) := by
    simp [String.data_append, gsScheme]
  have h1 : chompLit gsScheme (gsScheme ++ (B.data ++ '/' :: F.data)) =
      some (B.data ++ '/' :: F.data) := chompLit_self gsScheme _
  have h2 : splitFirstSlash (B.data ++ '/' :: F.data) = some (B.data, F.data) :=
    (splitFirstSlash_some_iff _ B.data F.data).mpr ⟨rfl, hB⟩
  simp only [parse_gsutil_path, hdata, h1, h2]

/-- Witness for C5 at a concrete bucket and folder. -/
theorem parse_gsutil_path_ok_witness :
    parse_gsutil_path ("gs://" ++ "my-bucket" ++ "/" ++ "my_folder/") =
      Except.ok { bucket := "my-bucket", folder := "my_folder/" } :=
  parse_gsutil_path_ok "my-bucket" "my_folder/" (by decide) (by decide)

/-- Claim C6: `parse_gsutil_path` fails (with an `InvalidLocator`-class
error) if and only if the input lacks the `gs://` scheme, or the
remainder after the scheme contains no path separator; in all other
cases it succeeds. -/
theorem parse_gsutil_path_error_iff (s : String) :
    (∃ e, parse_gsutil_path s = Except.error e) ↔
      (¬ ∃ t, s.data = gsScheme ++ t) ∨ ∃ t, s.data = gsScheme ++ t ∧ '/' ∉ t := by
  cases h1 : chompLit gsScheme s.data with
  | none =>
    constructor
    · intro _
      left
      rintro ⟨t, ht⟩
      have : chompLit gsScheme s.data = some t := (chompLit_some_iff gsScheme s.data t).mpr ht
      rw [h1] at this
      exact Option.noConfusion this
    · intro _
      exact ⟨"Invalid gsutil path format, no gs:// prefix", by simp [parse_gsutil_path, h1]⟩
  | some rest =>
    have hs : s.data = gsScheme ++ rest := (chompLit_some_iff gsScheme s.data rest).mp h1
    cases h2 : splitFirstSlash rest with
    | none =>
      constructor
      · intro _
        exact Or.inr ⟨rest, hs, (splitFirstSlash_none_iff rest).mp h2⟩
      · intro _
        exact ⟨"Invalid gsutil path format, no folder specified",
          by simp [parse_gsutil_path, h1, h2]⟩
    | some pair =>
      obtain ⟨b, f⟩ := pair
      constructor
      · rintro ⟨e, he⟩
        rw [show parse_gsutil_path s = Except.ok { bucket := ⟨b⟩, folder := ⟨f⟩ } from
          by simp [parse_gsutil_path, h1, h2]] at he
        exact Except.noConfusion he
      · rintro (hno | ⟨t, ht, hnt⟩)
        · exact absurd ⟨rest, hs⟩ hno
        · have htr : t = rest := List.append_cancel_left (ht.symm.trans hs)
          obtain ⟨hr, -⟩ := (splitFirstSlash_some_iff rest b f).mp h2
          rw [htr] at hnt
          have hmem : '/' ∈ rest := by
            rw [hr]
            exact List.mem_append.mpr (Or.inr (List.mem_cons.mpr (Or.inl rfl)))
          exact absurd hmem hnt

/-- Counterexample for claim C7: the parser accepts `gs:///a`, producing
an empty bucket, and accepts `gs://b/`, producing an empty folder even
though the input contains a separator after the bucket — refuting both
the non-empty-bucket invariant and the non-empty-folder-after-separator
invariant. -/
theorem parse_gsutil_path_empty_components :
    parse_gsutil_path "gs:///a" = Except.ok { bucket := "", folder := "a" } ∧
    parse_gsutil_path "gs://b/" = Except.ok { bucket := "b", folder := "" } :=
  ⟨rfl, rfl⟩

/-- Claim C7 as amended: every `GsPath` produced by a successful parse
has a bucket containing no path separator (it is the input's text
between the scheme and the first separator); both the bucket and the
folder may be empty. -/
theorem parse_gsutil_path_bucket_no_slash (s : String) (p : GsPath)
    (h : parse_gsutil_path s = Except.ok p) : '/' ∉ p.bucket.data :=
  (parse_gsutil_path_ok_inv s p h).2

/-- Witness for the amended C7 at a concrete input. -/
theorem parse_gsutil_path_bucket_no_slash_witness :
    '/' ∉ (GsPath.bucket { bucket := "b", folder := "f" }).data :=
  parse_gsutil_path_bucket_no_slash "gs://b/f" { bucket := "b", folder := "f" } rfl

/-- Claim C10: on every successful parse the bucket contains no path
separator, and `gs://` ++ bucket ++ `/` ++ folder reconstructs the
input exactly. -/
theorem parse_gsutil_path_round_trip (s : String) (p : GsPath)
    (h : parse_gsutil_path s = Except.ok p) :
    '/' ∉ p.bucket.data ∧ "gs://" ++ p.bucket ++ "/" ++ p.folder = s := by
  obtain ⟨hs, hnb⟩ := parse_gsutil_path_ok_inv s p h
  refine ⟨hnb, String.ext ?_⟩
  rw [hs]
  simp [String.data_append, gsScheme]

/-- Witness for C10 at a concrete input. -/
theorem parse_gsutil_path_round_trip_witness :
    '/' ∉ (GsPath.bucket { bucket := "bkt", folder := "dir/obj.txt" }).data ∧
    "gs://" ++ GsPath.bucket { bucket := "bkt", folder := "dir/obj.txt" } ++ "/" ++
        GsPath.folder { bucket := "bkt", folder := "dir/obj.txt" } = "gs://bkt/dir/obj.txt" :=
  parse_gsutil_path_round_trip "gs://bkt/dir/obj.txt"
    { bucket := "bkt", folder := "dir/obj.txt" } rfl

/-- Claim C3: for every backend failure behaviour and every finite
batch, `remove_objects` issues exactly one delete request per object,
in order, with the request list independent of which requests fail (so
one failure never prevents a sibling's request); it always returns
`Ok(())`; and it returns with a recorded outcome for every request in
the batch (the shallow rendering of `join_all` awaiting them all). -/
theorem remove_objects_spec (backendErr : DeleteObjectRequest → Option String)
    (items : List Object) :
    List.map Prod.fst (remove_objects backendErr items).outcomes =
      items.map (fun item => ({ bucket := item.bucket, object := item.name } :
        DeleteObjectRequest)) ∧
    (remove_objects backendErr items).result = Except.ok () ∧
    (remove_objects backendErr items).outcomes.length = items.length := by
  refine ⟨?_, rfl, ?_⟩
  · simp [remove_objects, List.map_map]
  · simp [remove_objects]

/-- Claim C2: in dry-run mode, `handle_removal` issues zero delete
requests (delete requests are the only backend-mutating calls in the
model), emits exactly one `gs://bucket/name` report line per matched
object, and returns `Ok(())` — for every input batch and every backend
failure behaviour. -/
theorem handle_removal_dry_run_spec (backendErr : DeleteObjectRequest → Option String)
    (items : Option (List Object)) :
    (handle_removal backendErr items true).deleteOutcomes = [] ∧
    (handle_removal backendErr items true).reportLines =
      (filter_objects (items.getD [])).map
        (fun obj => "gs://" ++ obj.bucket ++ "/" ++ obj.name) ∧
    (handle_removal backendErr items true).result = Except.ok () := by
  cases items with
  | none => exact ⟨rfl, rfl, rfl⟩
  | some l => exact ⟨rfl, rfl, rfl⟩

/-- Claim C9: `filter_objects` returns exactly the subsequence of its
input, in the original order, consisting of the objects whose name
matches the pattern, each retained object unchanged, with nothing
added: it equals `List.filter`, it is a sublist of the input, and
membership is exactly input-membership plus a matching name. -/
theorem filter_objects_spec (items : List Object) :
    filter_objects items = items.filter (fun obj => RE.is_match obj.name) ∧
    List.Sublist (filter_objects items) items ∧
    ∀ obj : Object, obj ∈ filter_objects items ↔ obj ∈ items ∧ RE.is_match obj.name = true := by
  have h : ∀ l : List Object, filter_objects l = l.filter (fun obj => RE.is_match obj.name) := by
    intro l
    induction l with
    | nil => rfl
    | cons o t ih =>
      simp only [filter_objects, List.filterMap_cons, List.filter_cons]
      cases ho : RE.is_match o.name with
      | false => simpa [ho] using ih
      | true => simpa [ho] using ih
  refine ⟨h items, ?_, ?_⟩
  · rw [h items]; exact List.filter_sublist items
  · intro obj
    rw [h items]
    exact List.mem_filter

/-- Claim C4: for every backend serving a finite page chain in which
every page except the last carries a continuation token and the last
carries none, the pagination loop of `main` issues exactly one listing
call per page, visiting every page once in order, and stops after the
page with no token — for every sufficiently large fuel, which is how
the fuel-free source loop's termination is rendered.  `Serves` places
no constraint on any page's `items`, so a page with an empty or absent
item list but a present continuation token does not terminate the
loop. -/
theorem pagination_visits_each_page_once
    (backend : Option String → ListObjectsResponse) (t : Option String)
    (ps : List ListObjectsResponse) (h : Serves backend t ps)
    (fuel : Nat) (hfuel : ps.length ≤ fuel) :
    runPagination backend fuel t = ps := by
  induction h generalizing fuel with
  | last t p hb hn =>
    cases fuel with
    | zero => simp at hfuel
    | succ k => simp [runPagination, hb, hn]
  | step t p tok rest hb htok hserves ih =>
    cases fuel with
    | zero => simp at hfuel
    | succ k =>
      have hk : rest.length ≤ k := by
        simp only [List.length_cons] at hfuel
        omega
      simp only [runPagination, hb, htok]
      rw [ih k hk]

/-- Witness for C4: a concrete three-page backend whose first page has
a present-but-empty item list and whose second page has an absent item
list, both with continuation tokens; the run visits all three pages. -/
theorem pagination_visits_each_page_once_witness :
    runPagination demoBackend 3 none = [demoPageA, demoPageB, demoPageC] :=
  pagination_visits_each_page_once demoBackend none [demoPageA, demoPageB, demoPageC]
    (Serves.step none demoPageA "t1" [demoPageB, demoPageC] rfl rfl
      (Serves.step (some "t1") demoPageB "t2" [demoPageC] (by decide) rfl
        (Serves.last (some "t2") demoPageC (by decide) rfl)))
    3 (by decide)

/-!
Lemmas characterising the matcher building blocks.
-/

theorem chompHex_some_iff :
    ∀ (n : Nat) (s t : List Char), chompHex n s = some t ↔ ∃ u, s = u ++ t ∧ HexRun n u := by
  intro n
  induction n with
  | zero =>
    intro s t
    constructor
    · intro h
      simp only [chompHex, Option.some.injEq] at h
      exact ⟨[], by simp [h], rfl, by intro c hc; cases hc⟩
    · rintro ⟨u, hsu, hu⟩
      obtain ⟨hlen, -⟩ := hu
      obtain rfl : u = [] := List.length_eq_zero.mp hlen
      simp only [chompHex, Option.some.injEq]
      simpa using hsu
  | succ n ih =>
    intro s t
    cases s with
    | nil =>
      constructor
      · intro h; simp [chompHex] at h
      · rintro ⟨u, hsu, hu⟩
        obtain ⟨hlen, -⟩ := hu
        cases u with
        | nil => simp at hlen
        | cons a u' => simp at hsu
    | cons c cs =>
      cases hx : isHexDigitRe c with
      | false =>
        constructor
        · intro h; simp [chompHex, hx] at h
        · rintro ⟨u, hsu, hu⟩
          obtain ⟨hlen, hall⟩ := hu
          cases u with
          | nil => simp at hlen
          | cons a u' =>
            obtain ⟨rfl, -⟩ := List.cons.injEq .. ▸ hsu
            rw [hall c (List.mem_cons.mpr (Or.inl rfl))] at hx
            exact Bool.noConfusion hx
      | true =>
        constructor
        · intro h
          simp only [chompHex, hx, if_true] at h
          obtain ⟨u', hsu, hlen, hall⟩ := (ih cs t).mp h
          refine ⟨c :: u', by simp [hsu], by simp [hlen], ?_⟩
          intro x hx2
          rcases List.mem_cons.mp hx2 with rfl | hx2
          · exact hx
          · exact hall x hx2
        · rintro ⟨u, hsu, hu⟩
          obtain ⟨hlen, hall⟩ := hu
          cases u with
          | nil => simp at hlen
          | cons a u' =>
            obtain ⟨rfl, hcs⟩ := List.cons.injEq .. ▸ hsu
            simp only [chompHex, hx, if_true]
            refine (ih cs t).mpr ⟨u', hcs, ?_, ?_⟩
            · simpa using hlen
            · intro x hx2; exact hall x (List.mem_cons.mpr (Or.inr hx2))

theorem chompHex_complete (n : Nat) (u t : List Char) (h : HexRun n u) :
    chompHex n (u ++ t) = some t :=
  (chompHex_some_iff n (u ++ t) t).mpr ⟨u, rfl, h⟩

theorem chompRun_decomp (p : Char → Bool) :
    ∀ s : List Char, s = (chompRun p s).1 ++ (chompRun p s).2 := by
  intro s
  induction s with
  | nil => rfl
  | cons c cs ih =>
    cases hp : p c with
    | true =>
      simp only [chompRun, hp, if_true, List.cons_append]
      exact congrArg (c :: ·) ih
    | false => simp [chompRun, hp]

theorem chompRun_mem (p : Char → Bool) :
    ∀ s : List Char, ∀ c ∈ (chompRun p s).1, p c = true := by
  intro s
  induction s with
  | nil => intro c hc; simp [chompRun] at hc
  | cons a as ih =>
    intro c hc
    cases hp : p a with
    | true =>
      simp only [chompRun, hp, if_true] at hc
      rcases List.mem_cons.mp hc with rfl | hc
      · exact hp
      · exact ih c hc
    | false => simp [chompRun, hp] at hc

theorem chompRun_head (p : Char → Bool) :
    ∀ (s : List Char) (c : Char) (cs : List Char),
      (chompRun p s).2 = c :: cs → p c = false := by
  intro s
  induction s with
  | nil => intro c cs h; simp [chompRun] at h
  | cons a as ih =>
    intro c cs h
    cases hp : p a with
    | true =>
      simp only [chompRun, hp, if_true] at h
      exact ih c cs h
    | false =>
      simp only [chompRun, hp, Bool.false_eq_true, if_false] at h
      obtain ⟨rfl, -⟩ := List.cons.injEq .. ▸ h
      exact hp

theorem chompRun_append (p : Char → Bool) :
    ∀ u t : List Char, (∀ c ∈ u, p c = true) →
      (∀ c cs, t = c :: cs → p c = false) → chompRun p (u ++ t) = (u, t) := by
  intro u
  induction u with
  | nil =>
    intro t hu ht
    cases t with
    | nil => rfl
    | cons c cs => simp [chompRun, ht c cs rfl]
  | cons a u' ih =>
    intro t hu ht
    have ha : p a = true := hu a (List.mem_cons.mpr (Or.inl rfl))
    have := ih t (fun c hc => hu c (List.mem_cons.mpr (Or.inr hc))) ht
    simp [chompRun, ha, this]

theorem chompRun_eq_sound (p : Char → Bool) (s r t : List Char)
    (h : chompRun p s = (r, t)) :
    s = r ++ t ∧ (∀ c ∈ r, p c = true) ∧ ∀ c cs, t = c :: cs → p c = false := by
  refine ⟨?_, ?_, ?_⟩
  · have hd := chompRun_decomp p s
    rw [h] at hd
    exact hd
  · intro c hc
    have hm := chompRun_mem p s c
    rw [h] at hm
    exact hm hc
  · intro c cs hcs
    exact chompRun_head p s c cs (by rw [h]; exact hcs)

theorem chompUuid_sound (s t : List Char) (h : chompUuid s = some t) :
    ∃ u, s = u ++ t ∧ UuidChars u := by
  unfold chompUuid at h
  cases h1 : chompHex 8 s with
  | none => rw [h1, Option.none_bind] at h; exact Option.noConfusion h
  | some s1 =>
    rw [h1, Option.some_bind] at h
    cases h2 : chompLit ['-'] s1 with
    | none => rw [h2, Option.none_bind] at h; exact Option.noConfusion h
    | some s2 =>
      rw [h2, Option.some_bind] at h
      cases h3 : chompHex 4 s2 with
      | none => rw [h3, Option.none_bind] at h; exact Option.noConfusion h
      | some s3 =>
        rw [h3, Option.some_bind] at h
        cases h4 : chompLit ['-'] s3 with
        | none => rw [h4, Option.none_bind] at h; exact Option.noConfusion h
        | some s4 =>
          rw [h4, Option.some_bind] at h
          cases h5 : chompHex 4 s4 with
          | none => rw [h5, Option.none_bind] at h; exact Option.noConfusion h
          | some s5 =>
            rw [h5, Option.some_bind] at h
            cases h6 : chompLit ['-'] s5 with
            | none => rw [h6, Option.none_bind] at h; exact Option.noConfusion h
            | some s6 =>
              rw [h6, Option.some_bind] at h
              cases h7 : chompHex 4 s6 with
              | none => rw [h7, Option.none_bind] at h; exact Option.noConfusion h
              | some s7 =>
                rw [h7, Option.some_bind] at h
                cases h8 : chompLit ['-'] s7 with
                | none => rw [h8, Option.none_bind] at h; exact Option.noConfusion h
                | some s8 =>
                  rw [h8, Option.some_bind] at h
                  obtain ⟨a, hsa, ha⟩ := (chompHex_some_iff 8 s s1).mp h1
                  have hb1 : s1 = ['-'] ++ s2 := (chompLit_some_iff ['-'] s1 s2).mp h2
                  obtain ⟨b, hsb, hb⟩ := (chompHex_some_iff 4 s2 s3).mp h3
                  have hb2 : s3 = ['-'] ++ s4 := (chompLit_some_iff ['-'] s3 s4).mp h4
                  obtain ⟨c, hsc, hc⟩ := (chompHex_some_iff 4 s4 s5).mp h5
                  have hb3 : s5 = ['-'] ++ s6 := (chompLit_some_iff ['-'] s5 s6).mp h6
                  obtain ⟨d, hsd, hd⟩ := (chompHex_some_iff 4 s6 s7).mp h7
                  have hb4 : s7 = ['-'] ++ s8 := (chompLit_some_iff ['-'] s7 s8).mp h8
                  obtain ⟨e, hse, he⟩ := (chompHex_some_iff 12 s8 t).mp h
                  refine ⟨a ++ '-' :: b ++ '-' :: c ++ '-' :: d ++ '-' :: e, ?_,
                    a, b, c, d, e, rfl, ha, hb, hc, hd, he⟩
                  rw [hsa, hb1, hsb, hb2, hsc, hb3, hsd, hb4, hse]
                  simp [List.append_assoc]

theorem chompUuid_complete (u t : List Char) (hu : UuidChars u) :
    chompUuid (u ++ t) = some t := by
  obtain ⟨a, b, c, d, e, rfl, ha, hb, hc, hd, he⟩ := hu
  unfold chompUuid
  simp only [List.append_assoc, List.cons_append]
  rw [chompHex_complete 8 a _ ha, Option.some_bind, chompLit_single, Option.some_bind,
    chompHex_complete 4 b _ hb, Option.some_bind, chompLit_single, Option.some_bind,
    chompHex_complete 4 c _ hc, Option.some_bind, chompLit_single, Option.some_bind,
    chompHex_complete 4 d _ hd, Option.some_bind, chompLit_single, Option.some_bind,
    chompHex_complete 12 e _ he]

theorem matchLeafAt_complete (leaf rest : List Char) (h : LeafShape leaf) :
    matchLeafAt (leaf ++ rest) = true := by
  unfold LeafShape at h
  unfold matchLeafAt
  rcases h with rfl | rfl | rfl | rfl | rfl | rfl | rfl | ⟨dd, t, rfl, hdd1, hdd, ht⟩
  · simp [chompLit]
  · simp [chompLit]
  · simp [chompLit]
  · simp [chompLit]
  · simp [chompLit]
  · simp [chompLit]
  · simp [chompLit]
  · have hhead : ∀ c cs, ('/' :: (t ++ rest)) = c :: cs → Char.isDigit c = false := by
      intro c cs hcc
      obtain ⟨rfl, -⟩ := List.cons.injEq .. ▸ hcc
      decide
    have hrun : chompRun Char.isDigit (dd ++ ('/' :: (t ++ rest))) = (dd, '/' :: (t ++ rest)) :=
      chompRun_append Char.isDigit dd _ hdd hhead
    have hscrut : chompLit "pipelines-logs/action/".data
        (("pipelines-logs/action/".data ++ dd ++ '/' :: t) ++ rest) =
        some (dd ++ ('/' :: (t ++ rest))) := by
      have harg : ("pipelines-logs/action/".data ++ dd ++ '/' :: t) ++ rest =
          "pipelines-logs/action/".data ++ (dd ++ ('/' :: (t ++ rest))) := by
        simp [List.append_assoc]
      rw [harg]
      exact chompLit_self _ _
    simp only [Bool.or_eq_true]
    refine Or.inr ?_
    rw [hscrut]
    show (decide (1 ≤ (chompRun Char.isDigit (dd ++ ('/' :: (t ++ rest)))).1.length) &&
      ((chompLit "/stderr".data (chompRun Char.isDigit (dd ++ ('/' :: (t ++ rest)))).2).isSome ||
       (chompLit "/stdout".data (chompRun Char.isDigit (dd ++ ('/' :: (t ++ rest)))).2).isSome)) =
      true
    rw [hrun]
    show (decide (1 ≤ dd.length) &&
      ((chompLit "/stderr".data ('/' :: (t ++ rest))).isSome ||
       (chompLit "/stdout".data ('/' :: (t ++ rest))).isSome)) = true
    rw [decide_eq_true hdd1, Bool.true_and]
    rcases ht with rfl | rfl
    · have h5 : chompLit "/stdout".data ('/' :: ("stdout".data ++ rest)) = some rest :=
        chompLit_self "/stdout".data rest
      rw [h5]
      simp
    · have h5 : chompLit "/stderr".data ('/' :: ("stderr".data ++ rest)) = some rest :=
        chompLit_self "/stderr".data rest
      rw [h5]
      simp

theorem matchLeafAt_sound (s : List Char) (h : matchLeafAt s = true) :
    ∃ leaf rest, s = leaf ++ rest ∧ LeafShape leaf := by
  unfold matchLeafAt at h
  simp only [Bool.or_eq_true, Option.isSome_iff_exists, or_assoc] at h
  rcases h with ⟨x, hx⟩ | ⟨x, hx⟩ | ⟨x, hx⟩ | ⟨x, hx⟩ | ⟨x, hx⟩ | ⟨x, hx⟩ | ⟨x, hx⟩ | h
  · exact ⟨"script".data, x, (chompLit_some_iff _ s x).mp hx, Or.inl rfl⟩
  · exact ⟨"rc".data, x, (chompLit_some_iff _ s x).mp hx, Or.inr (Or.inl rfl)⟩
  · exact ⟨"gcs_delocalization.sh".data, x, (chompLit_some_iff _ s x).mp hx,
      Or.inr (Or.inr (Or.inl rfl))⟩
  · exact ⟨"gcs_localization.sh".data, x, (chompLit_some_iff _ s x).mp hx,
      Or.inr (Or.inr (Or.inr (Or.inl rfl)))⟩
  · exact ⟨"gcs_transfer.sh".data, x, (chompLit_some_iff _ s x).mp hx,
      Or.inr (Or.inr (Or.inr (Or.inr (Or.inl rfl))))⟩
  · exact ⟨"stdout".data, x, (chompLit_some_iff _ s x).mp hx,
      Or.inr (Or.inr (Or.inr (Or.inr (Or.inr (Or.inl rfl)))))⟩
  · exact ⟨"stderr".data, x, (chompLit_some_iff _ s x).mp hx,
      Or.inr (Or.inr (Or.inr (Or.inr (Or.inr (Or.inr (Or.inl rfl))))))⟩
  · cases hcl : chompLit "pipelines-logs/action/".data s with
    | none => rw [hcl] at h; simp at h
    | some s1 =>
      rw [hcl] at h
      simp only [Bool.and_eq_true, Bool.or_eq_true, Option.isSome_iff_exists,
        decide_eq_true_eq] at h
      obtain ⟨hlen, hor⟩ := h
      rcases hrw : chompRun Char.isDigit s1 with ⟨d1, d2⟩
      rw [hrw] at hlen hor
      simp only at hlen hor
      obtain ⟨hs1, hdmem, -⟩ := chompRun_eq_sound Char.isDigit s1 d1 d2 hrw
      have hs : s = "pipelines-logs/action/".data ++ s1 :=
        (chompLit_some_iff _ s s1).mp hcl
      rcases hor with ⟨x, hx2⟩ | ⟨x, hx2⟩
      · have hd2 : d2 = "/stderr".data ++ x := (chompLit_some_iff _ d2 x).mp hx2
        refine ⟨"pipelines-logs/action/".data ++ d1 ++ '/' :: "stderr".data, x, ?_, ?_⟩
        · rw [hs, hs1, hd2]
          simp [List.append_assoc, List.cons_append,
            show ("/stderr".data : List Char) = '/' :: "stderr".data from rfl]
        · exact Or.inr (Or.inr (Or.inr (Or.inr (Or.inr (Or.inr (Or.inr
            ⟨d1, "stderr".data, rfl, hlen, hdmem, Or.inr rfl⟩))))))
      · have hd2 : d2 = "/stdout".data ++ x := (chompLit_some_iff _ d2 x).mp hx2
        refine ⟨"pipelines-logs/action/".data ++ d1 ++ '/' :: "stdout".data, x, ?_, ?_⟩
        · rw [hs, hs1, hd2]
          simp [List.append_assoc, List.cons_append,
            show ("/stdout".data : List Char) = '/' :: "stdout".data from rfl]
        · exact Or.inr (Or.inr (Or.inr (Or.inr (Or.inr (Or.inr (Or.inr
            ⟨d1, "stdout".data, rfl, hlen, hdmem, Or.inl rfl⟩))))))

theorem matchAt_sound (s : List Char) (h : matchAt s = true) :
    ∃ core rest, s = core ++ rest ∧ ShapeCore core := by
  unfold matchAt at h
  split at h
  · exact Bool.noConfusion h
  · rename_i s1 h1
    split at h
    · exact Bool.noConfusion h
    · rename_i s2 h2
      simp only [Bool.and_eq_true, decide_eq_true_eq] at h
      obtain ⟨hw1, h⟩ := h
      split at h
      · exact Bool.noConfusion h
      · rename_i s3 h3
        simp only [Bool.and_eq_true, decide_eq_true_eq] at h
        obtain ⟨⟨hd1, hd5⟩, h⟩ := h
        split at h
        · exact Bool.noConfusion h
        · rename_i s4 h4
          obtain ⟨leaf, rest, hs4, hleaf⟩ := matchLeafAt_sound s4 h
          obtain ⟨u, hsu, huu⟩ := chompUuid_sound s s1 h1
          have hs1 : s1 = "/call-".data ++ s2 := (chompLit_some_iff _ s1 s2).mp h2
          rcases hw : chompRun isWordDashRe s2 with ⟨w1, w2⟩
          rw [hw] at hw1 h3
          simp only at hw1 h3
          obtain ⟨hs2, hwmem, -⟩ := chompRun_eq_sound isWordDashRe s2 w1 w2 hw
          have hw2 : w2 = "/shard-".data ++ s3 := (chompLit_some_iff _ w2 s3).mp h3
          rcases hd : chompRun Char.isDigit s3 with ⟨d1, d2⟩
          rw [hd] at hd1 hd5 h4
          simp only at hd1 hd5 h4
          obtain ⟨hs3, hdmem, -⟩ := chompRun_eq_sound Char.isDigit s3 d1 d2 hd
          have hd2 : d2 = ['/'] ++ s4 := (chompLit_some_iff ['/'] d2 s4).mp h4
          refine ⟨u ++ "/call-".data ++ w1 ++ "/shard-".data ++ d1 ++ '/' :: leaf, rest, ?_, ?_⟩
          · rw [hsu, hs1, hs2, hw2, hs3, hd2, hs4]
            simp [List.append_assoc]
          · exact ⟨u, w1, d1, leaf, rfl, huu, hw1, hwmem, hd1, hd5, hdmem, hleaf⟩

theorem matchAt_complete (core rest : List Char) (h : ShapeCore core) :
    matchAt (core ++ rest) = true := by
  unfold ShapeCore at h
  obtain ⟨u, w, d, leaf, rfl, huu, hw1, hwmem, hd1, hd5, hdmem, hleaf⟩ := h
  have harg : (u ++ "/call-".data ++ w ++ "/shard-".data ++ d ++ '/' :: leaf) ++ rest =
      u ++ ("/call-".data ++ (w ++ ("/shard-".data ++ (d ++ ('/' :: (leaf ++ rest)))))) := by
    simp [List.append_assoc]
  have e1 : chompUuid (u ++ ("/call-".data ++ (w ++ ("/shard-".data ++
      (d ++ ('/' :: (leaf ++ rest))))))) =
      some ("/call-".data ++ (w ++ ("/shard-".data ++ (d ++ ('/' :: (leaf ++ rest)))))) :=
    chompUuid_complete u _ huu
  have e2 : chompLit "/call-".data ("/call-".data ++ (w ++ ("/shard-".data ++
      (d ++ ('/' :: (leaf ++ rest)))))) =
      some (w ++ ("/shard-".data ++ (d ++ ('/' :: (leaf ++ rest))))) :=
    chompLit_self "/call-".data _
  have hwhead : ∀ c cs, ("/shard-".data ++ (d ++ ('/' :: (leaf ++ rest)))) = c :: cs →
      isWordDashRe c = false := by
    intro c cs hcc
    have hsh : ("/shard-".data ++ (d ++ ('/' :: (leaf ++ rest)))) =
        '/' :: ("shard-".data ++ (d ++ ('/' :: (leaf ++ rest)))) := rfl
    rw [hsh] at hcc
    obtain ⟨rfl, -⟩ := List.cons.injEq .. ▸ hcc
    decide
  have e3 : chompRun isWordDashRe (w ++ ("/shard-".data ++ (d ++ ('/' :: (leaf ++ rest))))) =
      (w, "/shard-".data ++ (d ++ ('/' :: (leaf ++ rest)))) :=
    chompRun_append isWordDashRe w _ hwmem hwhead
  have e4 : chompLit "/shard-".data ("/shard-".data ++ (d ++ ('/' :: (leaf ++ rest)))) =
      some (d ++ ('/' :: (leaf ++ rest))) :=
    chompLit_self "/shard-".data _
  have hdhead : ∀ c cs, ('/' :: (leaf ++ rest)) = c :: cs → Char.isDigit c = false := by
    intro c cs hcc
    obtain ⟨rfl, -⟩ := List.cons.injEq .. ▸ hcc
    decide
  have e5 : chompRun Char.isDigit (d ++ ('/' :: (leaf ++ rest))) = (d, '/' :: (leaf ++ rest)) :=
    chompRun_append Char.isDigit d _ hdmem hdhead
  have e6 : chompLit ['/'] ('/' :: (leaf ++ rest)) = some (leaf ++ rest) :=
    chompLit_single '/' _
  have e7 : matchLeafAt (leaf ++ rest) = true := matchLeafAt_complete leaf rest hleaf
  unfold matchAt
  rw [harg]
  simp only [e1, e2, e3, e4, e5, e6, e7, decide_eq_true hw1, decide_eq_true hd1,
    decide_eq_true hd5, Bool.true_and, Bool.and_true]

theorem reSearch_sound (s : List Char) (h : reSearch s = true) :
    ∃ pre t, s = pre ++ t ∧ matchAt t = true := by
  induction s with
  | nil => exact ⟨[], [], rfl, h⟩
  | cons c cs ih =>
    rcases Bool.or_eq_true .. ▸ h with h1 | h2
    · exact ⟨[], c :: cs, rfl, h1⟩
    · obtain ⟨pre, t, hst, hm⟩ := ih h2
      exact ⟨c :: pre, t, by rw [List.cons_append, ← hst], hm⟩

theorem reSearch_complete (pre t : List Char) (h : matchAt t = true) :
    reSearch (pre ++ t) = true := by
  induction pre with
  | nil =>
    cases t with
    | nil => exact h
    | cons c cs => simp [reSearch, h]
  | cons c pre' ih =>
    have : reSearch (c :: (pre' ++ t)) = (matchAt (c :: (pre' ++ t)) || reSearch (pre' ++ t)) :=
      rfl
    rw [List.cons_append, this, ih, Bool.or_true]

/-- Counterexample for claim C1: the matcher is an unanchored substring
search, so the key
`xb189154b-fd26-4ed1-a6f0-4f6191f1e820/call-foobar/shard-42/script`
matches (the UUID-shaped substring starts inside the first segment at
offset 1) even though no path segment of the key is a canonical UUID,
so the claim's segment-sequence reading returns false. -/
theorem re_match_ignores_segment_boundaries :
    RE.is_match "xb189154b-fd26-4ed1-a6f0-4f6191f1e820/call-foobar/shard-42/script" = true ∧
    segmentSequenceMatch
      "xb189154b-fd26-4ed1-a6f0-4f6191f1e820/call-foobar/shard-42/script" = false := by
  constructor
  · decide
  · decide

/-- Claim C1 as amended: `RE.is_match` returns true iff the key
contains — as a raw substring, with no requirement that the shape start
or end at path-segment boundaries — a canonical 8-4-4-4-12 hexadecimal
UUID, then `/call-` and a non-empty word-or-dash token, then `/shard-`
and a 1-to-5-digit number, then `/` and one of the recognized leaf
names (arbitrary text may follow the leaf); and the two scenario keys
of the spec behave as stated. -/
theorem re_is_match_iff_contains_shape :
    (∀ key : String, RE.is_match key = true ↔
      ∃ pre core post, key.data = pre ++ core ++ post ∧ ShapeCore core) ∧
    RE.is_match
      "my_folder/b189154b-fd26-4ed1-a6f0-4f6191f1e820/call-foobar/shard-42/script" = true ∧
    RE.is_match "my_folder/call-foobar/shard-42/script" = false := by
  refine ⟨fun key => ⟨?_, ?_⟩, by decide, by decide⟩
  · intro h
    obtain ⟨pre, t, hs, hm⟩ := reSearch_sound key.data h
    obtain ⟨core, rest, ht, hshape⟩ := matchAt_sound t hm
    exact ⟨pre, core, rest, by rw [hs, ht, List.append_assoc], hshape⟩
  · rintro ⟨pre, core, post, hdata, hshape⟩
    have hm : matchAt (core ++ post) = true := matchAt_complete core post hshape
    have hres := reSearch_complete pre (core ++ post) hm
    unfold RE.is_match
    rw [hdata, List.append_assoc]
    exact hres
